import Mathlib

/-!
Verification development for the IPTV catalog/stream-resolution pipeline
(`m3u8_vavoo.py`, `lista.py`, `app.py`, `resolver.py`).

The Python sources are shallowly embedded as executable Lean definitions:
* Python strings are modelled as `String` (or `List Char` where symbolic
  reasoning over serialized playlist lines is needed); all string data in
  the relevant code paths is ASCII, so ASCII case-mapping and the six
  ASCII whitespace characters model `str.lower`, `str.strip` and `\s`.
* Network / filesystem / subprocess effects are passed in explicitly as
  oracle arguments describing the outcome of each external interaction.
* Python `dict`s used for ordered header/parameter maps are modelled as
  insertion-ordered association lists with overwrite-in-place semantics
  (`dictInsert`), matching CPython's dict iteration order.
-/

/-! # Definitions -/

/-- The whitespace characters recognized by Python `str.strip()` and the
regex class `\s` (restricted to ASCII, which covers all data handled by
this program). -/
def wsChar (c : Char) : Bool :=
  c = ' ' ∨ c = '\t' ∨ c = '\n' ∨ c = '\x0d' ∨ c = '\x0b' ∨ c = '\x0c'

/-- Python `str.strip()` on a list of characters. -/
def trimChars (s : List Char) : List Char :=
  ((s.dropWhile wsChar).reverse.dropWhile wsChar).reverse

/-- Python `str.strip()` on a `String`. -/
def pyStrip (s : String) : String :=
  String.mk (trimChars s.toList)

/-- Python substring test `needle in hay` on character lists. -/
def containsSeq (needle : List Char) : List Char → Bool
  | [] => needle.isEmpty
  | c :: rest => needle.isPrefixOf (c :: rest) || containsSeq needle rest

/-- Python substring test `needle in hay` on `String`s. -/
def strContains (needle hay : String) : Bool :=
  containsSeq needle.toList hay.toList

/-- Python `str.lower()` (ASCII). -/
def pyLower (s : String) : String :=
  String.mk (s.toList.map Char.toLower)

/-- Python `str.capitalize()` (ASCII): first character uppercased, the
rest lowercased. -/
def pyCapitalize (s : List Char) : List Char :=
  match s with
  | [] => []
  | c :: rest => c.toUpper :: rest.map Char.toLower

/-- Helper for `pySplitWs`: walk the characters keeping the (reversed)
current word in an accumulator. -/
def pySplitWsAux : List Char → List Char → List (List Char)
  | [], acc => if acc.isEmpty then [] else [acc.reverse]
  | c :: rest, acc =>
    if wsChar c then
      if acc.isEmpty then pySplitWsAux rest [] else acc.reverse :: pySplitWsAux rest []
    else pySplitWsAux rest (c :: acc)

/-- Python `str.split()` with no argument: split on runs of whitespace,
discarding empty pieces. -/
def pySplitWs (s : List Char) : List (List Char) :=
  pySplitWsAux s []

/-- Join a list of words with single spaces: Python `" ".join(words)`. -/
def joinSpace : List (List Char) → List Char
  | [] => []
  | [w] => w
  | w :: ws => w ++ ' ' :: joinSpace ws

/-- Ordered-dict lookup: Python `d.get(k, default)` over an
insertion-ordered association list. -/
def dictGet (d : List (String × String)) (k : String) (dflt : String) : String :=
  match d.find? (fun p => p.1 = k) with
  | some p => p.2
  | none => dflt

/-- Ordered-dict insertion `d[k] = v`: overwrite in place if the key is
present, else append (CPython insertion-order semantics). -/
def dictInsert (d : List (String × String)) (k v : String) : List (String × String) :=
  if d.any (fun p => p.1 = k) then
    d.map (fun p => if p.1 = k then (k, v) else p)
  else d ++ [(k, v)]

/-- `re.sub(r"\.[cs]$", "", name, flags=re.IGNORECASE)`: remove a trailing
dot followed by `c` or `s` (either case), if present. -/
def stripSuffixCS (s : List Char) : List Char :=
  match s.reverse with
  | l :: '.' :: rest =>
    if l = 'c' ∨ l = 's' ∨ l = 'C' ∨ l = 'S' then rest.reverse else s
  | _ => s

/-- `m3u8_vavoo.sanitize_tvg_id` (lines 89–91): strip a trailing `.c`/`.s`
suffix, strip whitespace, then capitalize every whitespace-separated word
and re-join with single spaces. -/
def sanitize_tvg_id (channel_name : String) : String :=
  String.mk (joinSpace ((pySplitWs (trimChars (stripSuffixCS channel_name.toList))).map pyCapitalize))

/-- The keyword test of `m3u8_vavoo.get_category` line 102:
`any(keyword.lower() in lower_name for keyword in keywords)` applied to one
`(category, keywords)` pair, where `lower_name = channel_name.lower()`. -/
def kwMatches (channel_name : String) (ck : String × List String) : Bool :=
  ck.2.any (fun kw => strContains (pyLower kw) (pyLower channel_name))

/-- `m3u8_vavoo.get_category` (lines 99–104): first category (in
configured order) one of whose keywords is a case-insensitive substring of
the channel name; `"ALTRI"` when none matches.  The name passed by the
compiler (`generate_m3u` line 195) is the *raw* item name. -/
def get_category (channel_name : String) (category_keywords : List (String × List String)) : String :=
  match category_keywords.find? (kwMatches channel_name) with
  | some ck => ck.1
  | none => "ALTRI"

/-- `app.get_channel_category` (lines 213–225): same first-match keyword
scan as `get_category`, over the configured category map. -/
def get_channel_category (channel_name : String) (category_keywords : List (String × List String)) : String :=
  match category_keywords.find? (kwMatches channel_name) with
  | some ck => ck.1
  | none => "ALTRI"

/-- Python `s[:-3]` for `len(s) > 3` (drop the last three characters). -/
def dropLast3 (s : List Char) : List Char :=
  s.take (s.length - 3)

/-- `m3u8_vavoo.get_logo_url` (lines 106–118): exact lookup of the
lowercased raw name in the logo map; when absent (or mapped to `""`),
build a placeholder URL from the name after removing a trailing
`.c`/`.s`, stripping whitespace, dropping the final three characters when
longer than three, and replacing spaces with `+`. -/
def get_logo_url (channel_name : String) (channel_logos : List (String × String)) : String :=
  let logo_url := dictGet channel_logos (pyLower channel_name) ""
  if logo_url ≠ "" then logo_url
  else
    let clean_name := trimChars (stripSuffixCS channel_name.toList)
    let clean_name := if clean_name.length > 3 then dropLast3 clean_name else clean_name
    let formatted_name := clean_name.map (fun c => if c = ' ' then '+' else c)
    "https://placehold.co/400x400?text=" ++ String.mk formatted_name

/-- The test of `app.clean_channel_name` line 96:
`re.match(r'\s\.[A-Za-z]', name[-3:])` together with `len(name) > 3` —
the name is longer than three characters and ends in whitespace, a literal
dot, and an ASCII letter. -/
def hasLocaleSuffix (s : List Char) : Bool :=
  match s.reverse with
  | l :: '.' :: w :: rest =>
    !rest.isEmpty && wsChar w && (decide ('A' ≤ l ∧ l ≤ 'Z') || decide ('a' ≤ l ∧ l ≤ 'z'))
  | _ => false

/-- `app.clean_channel_name` (lines 92–98): drop the last three characters
when the name is longer than three characters and those three characters
are whitespace, a dot, and a letter; otherwise return the name
unchanged. -/
def clean_channel_name (name : String) : String :=
  if hasLocaleSuffix name.toList then String.mk (dropLast3 name.toList) else name

/-- A raw catalog item as returned by the upstream catalog endpoint
(`items` elements with `name` and `url`). -/
structure RawItem where
  name : String
  url : String
deriving DecidableEq, Repr

/-- The per-channel values `generate_m3u` (lines 176–204) computes before
serializing an entry: the sanitized `tvg_id` (used as `tvg-id`,
`tvg-name`, and display name), the resolved logo URL, the assigned
category, and the original stream URL.  The playback headers and the
signature placeholder written with every entry are fixed
(`#EXTVLCOPT:` lines 200–203). -/
structure CompiledEntry where
  tvg_id : String
  logo : String
  category : String
  url : String
deriving DecidableEq, Repr

/-- The body of `generate_m3u`'s per-item loop (lines 176–204): skip items
whose name contains a removal keyword, keep only items whose name contains
an inclusion keyword, skip items with a falsy `url`, and otherwise compile
the entry fields exactly as the source does — `sanitize_tvg_id(name)`,
`get_category(name, ...)` and `get_logo_url(name, ...)` are all applied to
the *raw* item name. -/
def compileItem (channel_filters channel_remove : List String)
    (category_keywords : List (String × List String))
    (channel_logos : List (String × String)) (item : RawItem) : Option CompiledEntry :=
  if channel_remove.any (fun w => strContains (pyLower w) (pyLower item.name)) then none
  else if !(channel_filters.any (fun w => strContains (pyLower w) (pyLower item.name))) then none
  else if item.url = "" then none
  else some ⟨sanitize_tvg_id item.name, get_logo_url item.name channel_logos,
             get_category item.name category_keywords, item.url⟩

/-- Category assignment as the claim words it ("first whose keyword list
contains a case-insensitive substring match on the *sanitized* name
wins"): the first-match scan applied to `sanitize_tvg_id` of the name. -/
def categoryOfSanitizedName (channel_name : String)
    (category_keywords : List (String × List String)) : String :=
  get_category (sanitize_tvg_id channel_name) category_keywords

/-- Outcome list entry of one catalog POST: parsed `items` on success,
`error` for a raised exception. -/
def CatalogResponse : Type := Except Unit (List RawItem)

/-- The pagination loop of `get_channel_list`, with the cursor and
accumulator as loop state. -/
def get_channel_list : List CatalogResponse → Nat → List RawItem → List Nat × List RawItem
  | [], _, all_items => ([], all_items)
  | r :: rest, cursor, all_items =>
    match r with
    | .error _ => ([cursor], all_items)
    | .ok items =>
      if items.isEmpty then ([cursor], all_items)
      else
        let next := get_channel_list rest (cursor + items.length) (all_items ++ items)
        (cursor :: next.1, next.2)

/-- Spec-side mirror (from the spec's words): the cursors carried by the
successive requests, starting from `c` and advancing by the size of each
non-empty page, including the final request that observes the empty page
or the error. -/
def specCursors (c : Nat) : List CatalogResponse → List Nat
  | [] => []
  | .error _ :: _ => [c]
  | .ok items :: rest => if items.isEmpty then [c] else c :: specCursors (c + items.length) rest

/-- Spec-side mirror (from the spec's words): all items of the pages
before the first empty page or error, in order. -/
def specItems : List CatalogResponse → List RawItem
  | [] => []
  | .error _ :: _ => []
  | .ok items :: rest => if items.isEmpty then [] else items ++ specItems rest

/-- State of the module-level signature cache of `app.py` (lines 41–42):
`vavoo_signature` (None initially, a non-empty string once obtained) and
`vavoo_signature_timestamp`. -/
structure SigState where
  sig : Option String
  ts : Nat
deriving DecidableEq, Repr

/-- Outcome of running one external signature script (`subprocess.run`
with `check=True`): captured stdout, or a raised exception. -/
inductive RunOutcome
  | out (stdout : String)
  | raise
deriving DecidableEq, Repr

/-- `app.get_vavoo_signature` (lines 144–178): if the cached signature is
absent or older than 10800 seconds, try `chiave.py` (when present) and
then `m3u8_vavoo.py --get-signature`; a non-empty stripped stdout is
cached with the current time and returned; an exception or empty output
leaves the cache untouched and returns the previous (possibly stale)
value.  Returns (result, new cache state, whether a refresh was
attempted). -/
def get_vavoo_signature (st : SigState) (now : Nat) (chiaveExists : Bool)
    (chiave m3u8gen : RunOutcome) : Option String × SigState × Bool :=
  if st.sig = none ∨ now - st.ts > 10800 then
    let viaM3u8 : Option String × SigState × Bool :=
      match m3u8gen with
      | .raise => (st.sig, st, true)
      | .out o =>
        let s := pyStrip o
        if s ≠ "" then (some s, ⟨some s, now⟩, true) else (st.sig, st, true)
    if chiaveExists then
      match chiave with
      | .raise => (st.sig, st, true)
      | .out o =>
        let s := pyStrip o
        if s ≠ "" then (some s, ⟨some s, now⟩, true) else viaM3u8
    else viaM3u8
  else (st.sig, st, false)

/-- A channel record as produced by `app.parse_m3u8_to_channels` /
persisted in `channels_data.json` / held in `channels_data_cache`.
`logo = none` and `headers = []` model dictionaries without those keys
(every consumer reads them through `.get` with a default). -/
structure Channel where
  id : String
  name : String
  url : String
  genre : String
  logo : Option String
  headers : List (String × String)
  signature_placeholder : Option String
deriving DecidableEq, Repr

/-- The hard-coded example channels of `app.get_channels_data`
(lines 370–375). -/
def example_channels : List Channel :=
  [⟨"rai1-example", "Rai 1", "https://example.com/rai1.m3u8", "RAI", none, [], none⟩,
   ⟨"canale5-example", "Canale 5", "https://example.com/canale5.m3u8", "MEDIASET", none, [], none⟩,
   ⟨"skysport-example", "Sky Sport", "https://example.com/skysport.m3u8", "SPORT", none, [], none⟩,
   ⟨"discovery-example", "Discovery Channel", "https://example.com/discovery.m3u8", "DISCOVERY",
    none, [], none⟩]

/-- `app.get_channels_data` (lines 346–384): when the in-memory cache is
empty or older than 3600 seconds, take the persisted JSON channels if any,
else the channels parsed from the playlist if any, else the hard-coded
example channels; refresh the cache with the choice.  Arguments are the
cache pair and oracles for the two loading steps; returns the result
together with the new cache pair. -/
def get_channels_data (cache : List Channel) (cacheTs now : Nat)
    (fileChannels parsed : List Channel) : List Channel × List Channel × Nat :=
  if cache.isEmpty ∨ now - cacheTs > 3600 then
    let channels :=
      if !fileChannels.isEmpty then fileChannels
      else if !parsed.isEmpty then parsed
      else example_channels
    (channels, channels, now)
  else (cache, cache, cacheTs)

/-- UTF-8 encoding of one character, as byte values. -/
def utf8Bytes (c : Char) : List Nat :=
  let n := c.toNat
  if n < 0x80 then [n]
  else if n < 0x800 then [0xC0 + n / 0x40, 0x80 + n % 0x40]
  else if n < 0x10000 then [0xE0 + n / 0x1000, 0x80 + (n / 0x40) % 0x40, 0x80 + n % 0x40]
  else [0xF0 + n / 0x40000, 0x80 + (n / 0x1000) % 0x40, 0x80 + (n / 0x40) % 0x40, 0x80 + n % 0x40]

/-- Upper-case hexadecimal digit. -/
def hexDigit (n : Nat) : Char :=
  if n < 10 then Char.ofNat (48 + n) else Char.ofNat (55 + n)

/-- `urllib.parse.quote_plus` on a single byte: keep `[A-Za-z0-9_.-~]`,
turn a space into `+`, percent-encode everything else. -/
def quotePlusByte (b : Nat) : List Char :=
  if (48 ≤ b ∧ b ≤ 57) ∨ (65 ≤ b ∧ b ≤ 90) ∨ (97 ≤ b ∧ b ≤ 122) ∨
      b = 95 ∨ b = 46 ∨ b = 45 ∨ b = 126 then [Char.ofNat b]
  else if b = 32 then ['+']
  else ['%', hexDigit (b / 16), hexDigit (b % 16)]

/-- `urllib.parse.quote_plus` on a string. -/
def quotePlus (s : String) : String :=
  String.mk (((s.toList.map utf8Bytes).flatten.map quotePlusByte).flatten)

/-- `urllib.parse.urlencode(params, quote_via=quote_plus)` over an
insertion-ordered parameter map. -/
def urlencode (params : List (String × String)) : String :=
  String.intercalate "&" (params.map (fun p => quotePlus p.1 ++ "=" ++ quotePlus p.2))

/-- Outcome of one POST to the upstream resolve endpoint:
`http status result` is a response with the given status code, where
`result = some u` says the JSON body was a non-empty list whose first
element carries `"url": u` and `result = none` says the body had any
other shape; `exn` is a raised exception (transport error or timeout). -/
inductive ResolveOutcome
  | http (status : Nat) (result : Option String)
  | exn
deriving DecidableEq, Repr

/-- Whether the resolve call failed to produce a usable URL (exception,
timeout, non-200 status, or unusable body). -/
def ResolveOutcome.failed : ResolveOutcome → Bool
  | .exn => true
  | .http status result => !(decide (status = 200) && result.isSome)

/-- One entry of the `streams` list returned by the stream routes
(`{"url": ..., "title": ...}`). -/
structure StreamInfo where
  url : String
  title : String
deriving DecidableEq, Repr

/-- The parameter map the primary-proxy URL embeds (`app.resolve_stream_url`
lines 466–503): `api_password`, `d` (target URL), one `h_`-prefixed
parameter per record header in order, and — when a signature was
obtained — `h_mediahubmx-signature`.  Built with Python-dict insertion
semantics. -/
def primaryParams (psw d : String) (headers : List (String × String))
    (sig : Option String) : List (String × String) :=
  match sig with
  | some s =>
    dictInsert
      (headers.foldl (fun acc kv => dictInsert acc ("h_" ++ kv.1) kv.2)
        (dictInsert (dictInsert [] "api_password" psw) "d" d))
      "h_mediahubmx-signature" s
  | none =>
    headers.foldl (fun acc kv => dictInsert acc ("h_" ++ kv.1) kv.2)
      (dictInsert (dictInsert [] "api_password" psw) "d" d)

/-- The final MediaFlow proxy URL of `app.resolve_stream_url`
(lines 478, 491, 503; all three branches build the same shape). -/
def mkProxyUrl (mfp psw d : String) (headers : List (String × String))
    (sig : Option String) : String :=
  "https://" ++ mfp ++ "/proxy/hls/manifest.m3u8?" ++ urlencode (primaryParams psw d headers sig)

/-- `app.resolve_stream_url` (lines 409–508).  Oracles: `sig` is the value
`get_vavoo_signature()` would return, `resolveResp` the outcome of the
resolve POST (consulted only when the code issues that request).  Returns
the stream descriptor together with a flag recording whether the resolve
endpoint was contacted. -/
def resolve_stream_url (channel : Channel) (mediaflow_url mediaflow_psw : String)
    (sig : Option String) (resolveResp : ResolveOutcome) : StreamInfo × Bool :=
  let channel_name := clean_channel_name channel.name
  if channel.signature_placeholder = some "[$KEY$]" then
    match sig with
    | some signature =>
      let t :=
        if strContains "localhost" channel.url then (channel.url, false)
        else
          match resolveResp with
          | .exn => (channel.url, true)
          | .http status result =>
            if status = 200 then
              match result with
              | some u => (u, true)
              | none => (channel.url, true)
            else (channel.url, true)
      (⟨mkProxyUrl mediaflow_url mediaflow_psw t.1 channel.headers (some signature),
        channel_name⟩, t.2)
    | none =>
      (⟨mkProxyUrl mediaflow_url mediaflow_psw channel.url channel.headers none,
        channel_name⟩, false)
  else
    (⟨mkProxyUrl mediaflow_url mediaflow_psw channel.url channel.headers none,
      channel_name⟩, false)

/-- The stream routes (`app.py` lines 821–868) wrap the resolved
descriptor in a singleton list (`{"streams": [stream_info]}`). -/
def stream_route_streams (channel : Channel) (mediaflow_url mediaflow_psw : String)
    (sig : Option String) (resolveResp : ResolveOutcome) : List StreamInfo :=
  [(resolve_stream_url channel mediaflow_url mediaflow_psw sig resolveResp).1]

/-- The target URL that ends up embedded as the `d` parameter
(spec steps 1–3): the resolve result when the placeholder is set, a
signature is available, the URL is not a localhost URL and the resolve
call succeeds; the original record URL otherwise. -/
def resolvedTarget (channel : Channel) (sig : Option String)
    (resolveResp : ResolveOutcome) : String :=
  if channel.signature_placeholder = some "[$KEY$]" ∧ sig.isSome then
    if strContains "localhost" channel.url then channel.url
    else
      match resolveResp with
      | .exn => channel.url
      | .http status result =>
        if status = 200 then
          match result with
          | some u => u
          | none => channel.url
        else channel.url
  else channel.url

/-- The signature that ends up attached as the extra
`h_mediahubmx-signature` parameter: present exactly when the record
carries the placeholder and a signature was obtained. -/
def sigExtra (ph : Option String) (sig : Option String) : Option String :=
  match ph, sig with
  | some k, some s => if k = "[$KEY$]" then some s else none
  | _, _ => none

/-- `resolver.resolve_link` (lines 7–44): a localhost link is returned
unchanged with no upstream call; otherwise the resolve endpoint is
called — an exception or a `raise_for_status` failure (4xx/5xx) yields
`none`, a usable body yields its URL, anything else `none`.  The second
component records whether the endpoint was contacted. -/
def resolve_link (link signature : String) (resolveResp : ResolveOutcome) :
    Option String × Bool :=
  if strContains "localhost" link then (some link, false)
  else
    match resolveResp with
    | .exn => (none, true)
    | .http status result =>
      if 400 ≤ status then (none, true)
      else
        match result with
        | some u => (some u, true)
        | none => (none, true)

/-- Whether `resolve_stream_url` contacts the resolve endpoint: exactly
when the placeholder is set, a signature is available, and the URL is not
a localhost URL. -/
def resolveCalled (channel : Channel) (sig : Option String) : Bool :=
  decide (channel.signature_placeholder = some "[$KEY$]") && sig.isSome &&
    !(strContains "localhost" channel.url)

/-- The `#EXTINF` metadata line written per entry (`generate_m3u`
line 198): `#EXTINF:-1 tvg-id="{id}" tvg-name="{id}" tvg-logo="{logo}"
group-title="{category}",{id}`. -/
def extinfLine (tvg_id logo category : List Char) : List Char :=
  "#EXTINF:-1 tvg-id=\"".toList ++ (tvg_id ++ ("\" tvg-name=\"".toList ++ (tvg_id ++
    ("\" tvg-logo=\"".toList ++ (logo ++ ("\" group-title=\"".toList ++ (category ++
      ("\",".toList ++ tvg_id))))))))

/-- The six lines written per compiled entry (`generate_m3u`
lines 198–204): the metadata line, four fixed `#EXTVLCOPT:` directives
(including the literal signature placeholder `[$KEY$]`), and the bare
original URL. -/
def entryLines (e : CompiledEntry) : List (List Char) :=
  [extinfLine e.tvg_id.toList e.logo.toList e.category.toList,
   "#EXTVLCOPT:http-user-agent=okhttp/4.11.0".toList,
   "#EXTVLCOPT:http-origin=https://vavoo.to/".toList,
   "#EXTVLCOPT:http-referrer=https://vavoo.to/".toList,
   "#EXTVLCOPT:mediahubmx-signature=[$KEY$]".toList,
   e.url.toList]

/-- The playlist produced by `generate_m3u` for a list of compiled
entries: the `#EXTM3U` header line (line 174) followed by each entry's
lines. -/
def generate_m3u_lines (entries : List CompiledEntry) : List (List Char) :=
  "#EXTM3U url-tvg=\"http://epg-guide.com/it.gz\"".toList :: (entries.map entryLines).flatten

/-- One attempt of `re.search(attr + '="([^"]+)"', line)` at the current
position: the literal `attr="` must match here, followed by a non-empty
run of non-quote characters and a closing quote; the group is that run. -/
def tryMatchAttr (attr : List Char) (s : List Char) : Option (List Char) :=
  if (attr ++ ['=', '"']).isPrefixOf s then
    if ((s.drop (attr.length + 2)).takeWhile (fun c => decide (c ≠ '"'))).isEmpty then none
    else if ((s.drop (attr.length + 2)).takeWhile (fun c => decide (c ≠ '"'))).length
        < (s.drop (attr.length + 2)).length then
      some ((s.drop (attr.length + 2)).takeWhile (fun c => decide (c ≠ '"')))
    else none
  else none

/-- `re.search(attr + '="([^"]+)"', line)`: leftmost position where the
whole pattern matches, returning the group. -/
def reSearchAttr (attr : List Char) : List Char → Option (List Char)
  | [] => none
  | c :: rest =>
    match tryMatchAttr attr (c :: rest) with
    | some v => some v
    | none => reSearchAttr attr rest

/-- `re.search(r',([^\n]+)$', line)` on a newline-free line: everything
after the first comma that is followed by at least one character. -/
def reSearchComma : List Char → Option (List Char)
  | [] => none
  | c :: rest => if c = ',' ∧ rest ≠ [] then some rest else reSearchComma rest

/-- Python `line.split('=', 1)[1]`: everything after the first `=`
(total model; the callers guard with an `'=' in line` substring test). -/
def afterFirstEq : List Char → List Char
  | [] => []
  | c :: rest => if c = '=' then rest else afterFirstEq rest

/-- Char-list dict insertion with CPython semantics (as `dictInsert`). -/
def dictInsertC (d : List (List Char × List Char)) (k v : List Char) :
    List (List Char × List Char) :=
  if d.any (fun p => p.1 = k) then
    d.map (fun p => if p.1 = k then (k, v) else p)
  else d ++ [(k, v)]

/-- A parsed channel record (the dict appended to `channels` by
`parse_m3u8_to_channels`). -/
structure MRecord where
  id : List Char
  name : List Char
  genre : List Char
  logo : List Char
  headers : List (List Char × List Char)
  signature_placeholder : Option (List Char)
  url : List Char
deriving DecidableEq, Repr

/-- The fields extracted from a `#EXTINF` line (the in-progress `channel`
dict before its URL line is seen). -/
structure PartialChannel where
  id : List Char
  name : List Char
  genre : List Char
  logo : List Char
deriving DecidableEq, Repr

/-- The loop state of `parse_m3u8_to_channels` (lines 271–333):
accumulated channels, the in-progress channel, the header dict, and the
signature placeholder. -/
structure ParseState where
  channels : List MRecord
  current : Option PartialChannel
  headers : List (List Char × List Char)
  sigph : Option (List Char)
deriving DecidableEq, Repr

/-- One iteration of the parser loop (`parse_m3u8_to_channels`
lines 275–333), on one (stripped) line.  `catMap` is the category map
`get_channel_category` would consult for a missing `group-title`. -/
def parseStep (catMap : List (String × List String)) (st : ParseState)
    (rawLine : List Char) : ParseState :=
  let line := trimChars rawLine
  if "#EXTINF:".toList.isPrefixOf line then
    let id :=
      match reSearchAttr "tvg-id".toList line with
      | some v => v.map (fun c => if c = ' ' then '-' else c.toLower)
      | none => "channel-".toList ++ Nat.toDigits 10 st.channels.length
    let name :=
      match reSearchComma line with
      | some v => trimChars v
      | none => "Channel ".toList ++ Nat.toDigits 10 st.channels.length
    let genre :=
      match reSearchAttr "group-title".toList line with
      | some v => v
      | none => (get_channel_category (String.mk name) catMap).toList
    let logo :=
      match reSearchAttr "tvg-logo".toList line with
      | some v => v
      | none => []
    ⟨st.channels, some ⟨id, name, genre, logo⟩, [], none⟩
  else if "#EXTVLCOPT:".toList.isPrefixOf line then
    if containsSeq "http-user-agent=".toList line then
      { st with headers := dictInsertC st.headers "user-agent".toList (afterFirstEq line) }
    else if containsSeq "http-origin=".toList line then
      { st with headers := dictInsertC st.headers "origin".toList (afterFirstEq line) }
    else if containsSeq "http-referrer=".toList line then
      { st with headers := dictInsertC st.headers "referer".toList (afterFirstEq line) }
    else if containsSeq "mediahubmx-signature=".toList line then
      { st with sigph := some (afterFirstEq line) }
    else st
  else
    match st.current with
    | some pc =>
      if line ≠ [] ∧ ¬ (['#'].isPrefixOf line = true) then
        ⟨st.channels ++ [⟨pc.id, pc.name, pc.genre, pc.logo, st.headers, st.sigph, line⟩],
         none, st.headers, st.sigph⟩
      else st
    | none => st

/-- `parse_m3u8_to_channels` (lines 258–344) on the playlist's lines:
fold the per-line step from the empty state and return the accumulated
channels. -/
def parse_m3u8_lines (catMap : List (String × List String))
    (lines : List (List Char)) : List MRecord :=
  (lines.foldl (parseStep catMap) ⟨[], none, [], none⟩).channels

/-- The header dict the parser rebuilds for every written entry
(user-agent, origin, referer — in insertion order). -/
def fixedHeadersC : List (List Char × List Char) :=
  [("user-agent".toList, "okhttp/4.11.0".toList),
   ("origin".toList, "https://vavoo.to/".toList),
   ("referer".toList, "https://vavoo.to/".toList)]

/-- The id the parser derives from a `tvg-id` attribute
(`.replace(' ', '-').lower()`, line 285). -/
def deriveIdC (tvg : List Char) : List Char :=
  tvg.map (fun c => if c = ' ' then '-' else c.toLower)

/-- The record parsing yields for one written entry. -/
def parsedOf (e : CompiledEntry) : MRecord :=
  ⟨deriveIdC e.tvg_id.toList, e.tvg_id.toList, e.category.toList, e.logo.toList,
   fixedHeadersC, some "[$KEY$]".toList, e.url.toList⟩

/-- Well-formedness of a compiled entry for the round-trip: field values
free of quotes / commas / newlines (which would corrupt the one-line
metadata format — in the Python code exactly as in this model), the
tvg-id and URL free of leading/trailing whitespace (the parser strips
each line), the values not ending in another attribute's `attr=` text
(which would let the leftmost regex match steal the following quote), the
URL not starting with `#`, and the tvg-id / logo / category non-empty
(an empty one makes the corresponding regex group unmatchable). -/
abbrev WFEntry (e : CompiledEntry) : Prop :=
  e.tvg_id.toList ≠ [] ∧ '"' ∉ e.tvg_id.toList ∧ ',' ∉ e.tvg_id.toList ∧
    '\n' ∉ e.tvg_id.toList ∧
    e.tvg_id.toList.dropWhile wsChar = e.tvg_id.toList ∧
    e.tvg_id.toList.reverse.dropWhile wsChar = e.tvg_id.toList.reverse ∧
    ¬ ("tvg-logo=".toList <:+ e.tvg_id.toList) ∧
    ¬ ("group-title=".toList <:+ e.tvg_id.toList) ∧
  e.logo.toList ≠ [] ∧ '"' ∉ e.logo.toList ∧ ',' ∉ e.logo.toList ∧ '\n' ∉ e.logo.toList ∧
    ¬ ("group-title=".toList <:+ e.logo.toList) ∧
  e.category.toList ≠ [] ∧ '"' ∉ e.category.toList ∧ ',' ∉ e.category.toList ∧
    '\n' ∉ e.category.toList ∧
  e.url.toList ≠ [] ∧ '\n' ∉ e.url.toList ∧
    e.url.toList.dropWhile wsChar = e.url.toList ∧
    e.url.toList.reverse.dropWhile wsChar = e.url.toList.reverse ∧
    ¬ (['#'].isPrefixOf e.url.toList = true)

/-! # Theorems -/

/-- C4 counterexample: the claim says the keyword match is performed on
the **sanitized** name.  The compiler matches on the **raw** name
(`generate_m3u` line 195 passes `name`, not `tvg_id`, to `get_category`):
for name `"rai .c"` and map `{"X": [".c"]}` the compiled category is
`"X"`, while a match on the sanitized name `"Rai"` would give the default
`"ALTRI"`. -/
theorem get_category_sanitized_cex :
    (compileItem ["rai"] [] [("X", [".c"])] [] ⟨"rai .c", "http://u"⟩).map (fun e => e.category)
        = some "X" ∧
    categoryOfSanitizedName "rai .c" [("X", [".c"])] = "ALTRI" ∧
    ("X" : String) ≠ "ALTRI" := by
  refine ⟨by decide, by decide, by decide⟩

/-- C4 (amended): category assignment is deterministic and first-match on
the **raw** channel name — categories are scanned in configured order and
the first whose keyword list has a case-insensitive substring match on the
(raw, unsanitized) name wins, with `"ALTRI"` assigned when none match; for
the map `{"RAI": ["rai"]}` and name `"Rai 1 .c"` the result is `"RAI"`. -/
theorem get_category_first_match :
    (∀ (name : String) (pre : List (String × List String)) (cat : String)
        (kws : List String) (post : List (String × List String)),
        (∀ ck ∈ pre, kwMatches name ck = false) →
        kwMatches name (cat, kws) = true →
        get_category name (pre ++ (cat, kws) :: post) = cat) ∧
    (∀ (name : String) (cks : List (String × List String)),
        (∀ ck ∈ cks, kwMatches name ck = false) →
        get_category name cks = "ALTRI") ∧
    get_category "Rai 1 .c" [("RAI", ["rai"])] = "RAI" := by
  refine ⟨?_, ?_, by decide⟩
  · intro name pre cat kws post hpre hmatch
    induction pre with
    | nil => simp [get_category, List.find?, hmatch]
    | cons ck pre ih =>
      have hck : kwMatches name ck = false := hpre ck (List.mem_cons_self ck pre)
      have hrest : ∀ ck ∈ pre, kwMatches name ck = false := fun c hc =>
        hpre c (List.mem_cons_of_mem ck hc)
      simpa [get_category, List.find?, hck] using ih hrest
  · intro name cks h
    induction cks with
    | nil => simp [get_category, List.find?]
    | cons ck cks ih =>
      have hck : kwMatches name ck = false := h ck (List.mem_cons_self ck cks)
      have hrest : ∀ c ∈ cks, kwMatches name c = false := fun c hc =>
        h c (List.mem_cons_of_mem ck hc)
      simpa [get_category, List.find?, hck] using ih hrest

/-- C4 witness: the first-match part of `get_category_first_match`
instantiated at a concrete map with an earlier non-matching category. -/
theorem get_category_first_match_witness :
    get_category "Rai 1" ([("SKY", ["sky"])] ++ ("RAI", ["rai"]) :: [("MEDIASET", ["mediaset"])])
      = "RAI" :=
  get_category_first_match.1 "Rai 1" [("SKY", ["sky"])] "RAI" ["rai"] [("MEDIASET", ["mediaset"])]
    (by decide) (by decide)

/-- C5 counterexample: `clean_channel_name` strips only one ` .x` suffix
per call, so it is **not** idempotent: `"A .c .c"` cleans to `"A .c"`,
which cleans again to `"A"`. -/
theorem clean_channel_name_not_idempotent :
    clean_channel_name (clean_channel_name "A .c .c") ≠ clean_channel_name "A .c .c" := by
  decide

/-- C5 (amended): `clean_channel_name` drops the final three characters
exactly when the name is longer than three characters and ends in
whitespace, a literal dot, and an ASCII letter; otherwise the name is
returned unchanged.  It is idempotent only on names whose cleaned form
does not itself end in such a suffix (a single suffix is stripped per
call). -/
theorem clean_channel_name_spec :
    (∀ (pre : List Char) (w l : Char), pre ≠ [] → wsChar w = true →
        (('A' ≤ l ∧ l ≤ 'Z') ∨ ('a' ≤ l ∧ l ≤ 'z')) →
        clean_channel_name (String.mk (pre ++ [w, '.', l])) = String.mk pre) ∧
    (∀ s : String, hasLocaleSuffix s.toList = false → clean_channel_name s = s) ∧
    (∀ s : String, hasLocaleSuffix (clean_channel_name s).toList = false →
        clean_channel_name (clean_channel_name s) = clean_channel_name s) := by
  have unchanged : ∀ s : String, hasLocaleSuffix s.toList = false → clean_channel_name s = s := by
    intro s h
    unfold clean_channel_name
    rw [h]
    simp
  refine ⟨?_, unchanged, fun s h => unchanged _ h⟩
  intro pre w l hpre hw hl
  have hsuf : hasLocaleSuffix (String.mk (pre ++ [w, '.', l])).toList = true := by
    show hasLocaleSuffix (pre ++ [w, '.', l]) = true
    unfold hasLocaleSuffix
    rw [show (pre ++ [w, '.', l]).reverse = l :: '.' :: w :: pre.reverse by
      simp [List.reverse_append]]
    simp only [Bool.and_eq_true, Bool.or_eq_true, decide_eq_true_eq, Bool.not_eq_true']
    refine ⟨⟨?_, hw⟩, ?_⟩
    · simpa [List.isEmpty_iff] using hpre
    · rcases hl with h | h
      · exact Or.inl (by exact_mod_cast h)
      · exact Or.inr (by exact_mod_cast h)
  unfold clean_channel_name
  rw [hsuf]
  simp only [if_true]
  show String.mk (dropLast3 (pre ++ [w, '.', l])) = String.mk pre
  unfold dropLast3
  rw [show (pre ++ [w, '.', l]).length - 3 = pre.length by simp]
  rw [List.take_left]

/-- C5 witness: the strip branch of `clean_channel_name_spec` at a
concrete name. -/
theorem clean_channel_name_spec_witness :
    clean_channel_name (String.mk (['R', 'a', 'i'] ++ [' ', '.', 'c'])) = String.mk ['R', 'a', 'i'] :=
  clean_channel_name_spec.1 ['R', 'a', 'i'] ' ' 'c' (by decide) (by decide) (Or.inr (by decide))

/-- C7 counterexample: for name `"Rai 1 .c"` and an empty logo map the
generated placeholder is `".../text=Ra"` — after the regex strips `.c`
and `strip()` removes trailing whitespace, `get_logo_url` (line 115)
removes three **more** characters (`"Rai 1"[:-3] == "Ra"`), so the
placeholder does not contain `"Rai+1"` as the claim states. -/
theorem get_logo_url_cex :
    get_logo_url "Rai 1 .c" [] = "https://placehold.co/400x400?text=Ra" ∧
    strContains "Rai+1" (get_logo_url "Rai 1 .c" []) = false := by
  refine ⟨by decide, by decide⟩

/-- C7 (amended): logo resolution looks up the lowercased **raw** name in
the logo map and returns a non-empty hit verbatim; when the lookup
misses, it synthesizes a placeholder URL embedding the name after
stripping a trailing `.c`/`.s` suffix, trimming whitespace, dropping the
final three characters when the remainder is longer than three, and
encoding spaces as `+` — for `"Rai 1 .c"` and an empty map the
placeholder text is `"Ra"`. -/
theorem get_logo_url_spec :
    (∀ (name : String) (logos : List (String × String)) (v : String),
        dictGet logos (pyLower name) "" = v → v ≠ "" →
        get_logo_url name logos = v) ∧
    (∀ (name : String) (logos : List (String × String)),
        dictGet logos (pyLower name) "" = "" →
        get_logo_url name logos =
          "https://placehold.co/400x400?text=" ++
            String.mk ((let cn := trimChars (stripSuffixCS name.toList)
                        if cn.length > 3 then dropLast3 cn else cn).map
              (fun c => if c = ' ' then '+' else c))) ∧
    get_logo_url "Rai 1 .c" [] = "https://placehold.co/400x400?text=Ra" := by
  refine ⟨?_, ?_, by decide⟩
  · intro name logos v hv hne
    unfold get_logo_url
    rw [hv]
    simp [hne]
  · intro name logos h
    unfold get_logo_url
    rw [h]
    simp

/-- C7 witness: the lookup branch of `get_logo_url_spec` at a concrete
map keyed by the lowercased raw name. -/
theorem get_logo_url_spec_witness :
    get_logo_url "Rai 1 .c" [("rai 1 .c", "https://logos/rai1.png")] = "https://logos/rai1.png" :=
  get_logo_url_spec.1 "Rai 1 .c" [("rai 1 .c", "https://logos/rai1.png")]
    "https://logos/rai1.png" (by decide) (by decide)

/-- C3: the fetcher issues requests whose cursors advance by the items
received, stops at the first empty page or error, and returns the items
accumulated so far (errors are absorbed, never raised); each cursor equals
the cumulative number of items received by the preceding requests; and in
the concrete scenario of a 100-item page followed by an empty page,
exactly two requests are issued and the second carries cursor 100. -/
theorem get_channel_list_spec :
    (∀ (rs : List CatalogResponse) (c : Nat) (acc : List RawItem),
        get_channel_list rs c acc = (specCursors c rs, acc ++ specItems rs)) ∧
    (∀ (rs : List CatalogResponse) (c i : Nat), i < (specCursors c rs).length →
        (specCursors c rs).getD i 0 = c + (specItems (rs.take i)).length) ∧
    get_channel_list [Except.ok (List.replicate 100 ⟨"chan", "http://u"⟩), Except.ok []] 0 []
      = ([0, 100], List.replicate 100 ⟨"chan", "http://u"⟩) := by
  refine ⟨?_, ?_, by rfl⟩
  · intro rs
    induction rs with
    | nil => intro c acc; simp [get_channel_list, specCursors, specItems]
    | cons r rest ih =>
      intro c acc
      match r with
      | .error _ => simp [get_channel_list, specCursors, specItems]
      | .ok items =>
        by_cases he : items.isEmpty
        · simp [get_channel_list, specCursors, specItems, he]
        · simp only [get_channel_list, specCursors, specItems, he, if_false, Bool.false_eq_true,
            ite_false, ih]
          simp [List.append_assoc]
  · intro rs
    induction rs with
    | nil => intro c i h; simp [specCursors] at h
    | cons r rest ih =>
      intro c i h
      match r with
      | .error _ =>
        simp only [specCursors, List.length_singleton] at h
        have h0 : i = 0 := by omega
        subst h0
        simp [specCursors, specItems]
      | .ok items =>
        by_cases he : items = []
        · subst he
          simp only [specCursors, List.isEmpty_nil, if_true, List.length_singleton] at h
          have h0 : i = 0 := by omega
          subst h0
          simp [specCursors, specItems]
        · have he2 : items.isEmpty = false := by simpa [List.isEmpty_iff] using he
          simp only [specCursors, he2, Bool.false_eq_true, if_false, List.length_cons] at h
          cases i with
          | zero => simp [specCursors, specItems, he2]
          | succ i =>
            have h2 : i < (specCursors (c + items.length) rest).length := by omega
            have key := ih (c + items.length) i h2
            simp only [specCursors, he2, Bool.false_eq_true, if_false, List.getD_cons_succ]
            rw [key]
            simp only [List.take_succ_cons, specItems, he2, Bool.false_eq_true, if_false,
              List.length_append]
            omega

/-- C3 witness: the cumulative-cursor part of `get_channel_list_spec` at
the concrete two-page scenario — the second request carries cursor 100. -/
theorem get_channel_list_spec_witness :
    (specCursors 0 [Except.ok (List.replicate 100 ⟨"chan", "http://u"⟩), Except.ok []]).getD 1 0
      = 0 + (specItems ([Except.ok (List.replicate 100 (⟨"chan", "http://u"⟩ : RawItem)),
          Except.ok []].take 1)).length :=
  get_channel_list_spec.2.1 [Except.ok (List.replicate 100 ⟨"chan", "http://u"⟩), Except.ok []]
    0 1 (by decide)

/-- C6 counterexample: a signature obtained at time 0 is stale at time
20000 (20000 > 0 + 10800), yet when both refresh scripts fail the stale
value `"OLDSIG"` is returned for use — the stale signature is **not**
discarded, contradicting the claim that a signature is never used past
`obtainedAt + ttl`. -/
theorem get_vavoo_signature_stale_cex :
    get_vavoo_signature ⟨some "OLDSIG", 0⟩ 20000 true RunOutcome.raise RunOutcome.raise
        = (some "OLDSIG", ⟨some "OLDSIG", 0⟩, true) ∧
    20000 > 0 + 10800 := by
  refine ⟨by rfl, by decide⟩

/-- C6 (amended): while `now − obtainedAt ≤ ttl` the cached signature is
returned with no refresh attempt; once stale (or absent) a re-obtain is
attempted before returning — on success the new signature replaces the
cache, but on failure the previous stale signature is returned as a
degraded fallback (so a stale signature can still be used). -/
theorem get_vavoo_signature_spec :
    (∀ (st : SigState) (now : Nat) (v : String) (ce : Bool) (c m : RunOutcome),
        st.sig = some v → now - st.ts ≤ 10800 →
        get_vavoo_signature st now ce c m = (some v, st, false)) ∧
    (∀ (st : SigState) (now : Nat) (o : String) (m : RunOutcome),
        (st.sig = none ∨ now - st.ts > 10800) → pyStrip o ≠ "" →
        get_vavoo_signature st now true (RunOutcome.out o) m
          = (some (pyStrip o), ⟨some (pyStrip o), now⟩, true)) ∧
    (∀ (st : SigState) (now : Nat),
        (st.sig = none ∨ now - st.ts > 10800) →
        get_vavoo_signature st now true RunOutcome.raise RunOutcome.raise
          = (st.sig, st, true)) := by
  refine ⟨?_, ?_, ?_⟩
  · intro st now v ce c m hv hfresh
    unfold get_vavoo_signature
    rw [if_neg]
    · rw [hv]
    · rw [hv]
      simp
      omega
  · intro st now o m hstale hne
    unfold get_vavoo_signature
    rw [if_pos hstale]
    simp [hne]
  · intro st now hstale
    unfold get_vavoo_signature
    rw [if_pos hstale]
    simp

/-- C6 witness: the within-TTL branch of `get_vavoo_signature_spec` at a
concrete cache state. -/
theorem get_vavoo_signature_spec_witness :
    get_vavoo_signature ⟨some "SIG", 100⟩ 200 true RunOutcome.raise RunOutcome.raise
      = (some "SIG", ⟨some "SIG", 100⟩, false) :=
  get_vavoo_signature_spec.1 ⟨some "SIG", 100⟩ 200 "SIG" true RunOutcome.raise RunOutcome.raise
    rfl (by decide)

/-- C8 counterexample: with no playlist file, no persisted channel data
and an empty cache, the cache read returns the hard-coded example
channels, which is **not** an empty snapshot as the claim states. -/
theorem get_channels_data_empty_cex :
    (get_channels_data [] 0 0 [] []).1 = example_channels ∧ example_channels ≠ [] := by
  refine ⟨by rfl, by decide⟩

/-- C8 (amended): when no snapshot has ever been produced (no persisted
data, nothing parseable, empty cache) the cache read does not fail — it
returns the built-in non-empty list of four example channels and caches
it. -/
theorem get_channels_data_fallback :
    (∀ ts now : Nat, get_channels_data [] ts now [] []
        = (example_channels, example_channels, now)) ∧
    example_channels.length = 4 ∧ example_channels ≠ [] := by
  refine ⟨?_, by decide, by decide⟩
  intro ts now
  simp [get_channels_data]

/-- `String.append` is left-cancellative. -/
theorem str_append_left_cancel {s a b : String} (h : s ++ a = s ++ b) : a = b := by
  have hd : s.data ++ a.data = s.data ++ b.data := by
    have := congrArg String.data h
    simpa [String.data_append] using this
  have h2 : a.data = b.data := List.append_cancel_left hd
  cases a; cases b
  exact congrArg String.mk h2

/-- Inserting a key not present in the dict appends it. -/
theorem dictInsert_fresh (d : List (String × String)) (k v : String)
    (h : ∀ p ∈ d, p.1 ≠ k) : dictInsert d k v = d ++ [(k, v)] := by
  unfold dictInsert
  split
  case isTrue hany =>
    exfalso
    rw [List.any_eq_true] at hany
    obtain ⟨p, hp, hk⟩ := hany
    exact h p hp (by simpa using hk)
  case isFalse _ => rfl

/-- Folding `h_`-prefixed header insertions over a dict whose keys avoid
the prefixed header keys appends the prefixed pairs in order. -/
theorem foldl_dictInsert_headers (hs : List (String × String)) :
    ∀ (base : List (String × String)),
      (∀ kv ∈ hs, ∀ p ∈ base, p.1 ≠ "h_" ++ kv.1) →
      (hs.map Prod.fst).Nodup →
      hs.foldl (fun acc kv => dictInsert acc ("h_" ++ kv.1) kv.2) base
        = base ++ hs.map (fun kv => ("h_" ++ kv.1, kv.2)) := by
  induction hs with
  | nil => intro base _ _; simp
  | cons kv hs ih =>
    intro base hfresh hnd
    have hstep : dictInsert base ("h_" ++ kv.1) kv.2 = base ++ [("h_" ++ kv.1, kv.2)] :=
      dictInsert_fresh base _ _ (fun p hp => hfresh kv (List.mem_cons_self kv hs) p hp)
    have hnd' : kv.1 ∉ hs.map Prod.fst ∧ (hs.map Prod.fst).Nodup := by
      rw [List.map_cons, List.nodup_cons] at hnd
      exact hnd
    have hfresh2 : ∀ kv2 ∈ hs, ∀ p ∈ base ++ [("h_" ++ kv.1, kv.2)], p.1 ≠ "h_" ++ kv2.1 := by
      intro kv2 hkv2 p hp
      rcases List.mem_append.mp hp with hpb | hpn
      · exact hfresh kv2 (List.mem_cons_of_mem kv hkv2) p hpb
      · have hpe : p = ("h_" ++ kv.1, kv.2) := by simpa using hpn
        subst hpe
        intro hcontra
        have heq : kv.1 = kv2.1 := str_append_left_cancel hcontra
        exact hnd'.1 (heq ▸ List.mem_map_of_mem Prod.fst hkv2)
    calc (kv :: hs).foldl (fun acc kv => dictInsert acc ("h_" ++ kv.1) kv.2) base
        = hs.foldl (fun acc kv => dictInsert acc ("h_" ++ kv.1) kv.2)
            (base ++ [("h_" ++ kv.1, kv.2)]) := by rw [List.foldl_cons, hstep]
      _ = (base ++ [("h_" ++ kv.1, kv.2)]) ++ hs.map (fun kv => ("h_" ++ kv.1, kv.2)) :=
            ih _ hfresh2 hnd'.2
      _ = base ++ (kv :: hs).map (fun kv => ("h_" ++ kv.1, kv.2)) := by simp

/-- Under distinct header keys none of which is `mediahubmx-signature`,
the primary parameter dict is exactly the flat ordered list the spec
describes. -/
theorem primaryParams_eq (psw d : String) (hs : List (String × String)) (sig : Option String)
    (hnd : (hs.map Prod.fst).Nodup)
    (hks : ∀ kv ∈ hs, kv.1 ≠ "mediahubmx-signature") :
    primaryParams psw d hs sig
      = [("api_password", psw), ("d", d)] ++ hs.map (fun kv => ("h_" ++ kv.1, kv.2)) ++
        (match sig with
         | some s => [("h_mediahubmx-signature", s)]
         | none => []) := by
  have h1 : dictInsert (dictInsert [] "api_password" psw) "d" d
      = [("api_password", psw), ("d", d)] := by
    unfold dictInsert
    simp
  have hfresh : ∀ kv ∈ hs, ∀ p ∈ [("api_password", psw), ("d", d)], p.1 ≠ "h_" ++ kv.1 := by
    intro kv _ p hp
    rcases List.mem_cons.mp hp with hpe | hp2
    · subst hpe
      intro hcontra
      have hch : "h_".data ++ kv.1.data = "api_password".data := by
        simpa [String.data_append] using congrArg String.data hcontra.symm
      simp at hch
    · have hpe : p = ("d", d) := by simpa using hp2
      subst hpe
      intro hcontra
      have hch : "h_".data ++ kv.1.data = "d".data := by
        simpa [String.data_append] using congrArg String.data hcontra.symm
      simp at hch
  have h2 := foldl_dictInsert_headers hs [("api_password", psw), ("d", d)] hfresh hnd
  match sig with
  | none =>
    show hs.foldl (fun acc kv => dictInsert acc ("h_" ++ kv.1) kv.2)
        (dictInsert (dictInsert [] "api_password" psw) "d" d) = _
    rw [h1, h2]
    simp
  | some s =>
    show dictInsert (hs.foldl (fun acc kv => dictInsert acc ("h_" ++ kv.1) kv.2)
        (dictInsert (dictInsert [] "api_password" psw) "d" d)) "h_mediahubmx-signature" s = _
    rw [h1, h2]
    have hfresh3 : ∀ p ∈ [("api_password", psw), ("d", d)] ++
        hs.map (fun kv => ("h_" ++ kv.1, kv.2)), p.1 ≠ "h_mediahubmx-signature" := by
      intro p hp
      rcases List.mem_append.mp hp with hpb | hpm
      · rcases List.mem_cons.mp hpb with hpe | hp2
        · subst hpe
          exact (by decide : ("api_password" : String) ≠ "h_mediahubmx-signature")
        · have hpe : p = ("d", d) := by simpa using hp2
          subst hpe
          exact (by decide : ("d" : String) ≠ "h_mediahubmx-signature")
      · rcases List.mem_map.mp hpm with ⟨kv, hkv, hpe⟩
        subst hpe
        intro hcontra
        have heq : kv.1 = "mediahubmx-signature" :=
          str_append_left_cancel (s := "h_") (by simpa using hcontra)
        exact hks kv hkv heq
    rw [dictInsert_fresh _ _ _ hfresh3]

/-- Characterization of `resolve_stream_url`: the descriptor always pairs
the proxy URL built from the resolved target and the conditionally
attached signature with the cleaned channel name, and the endpoint is
contacted exactly when `resolveCalled` says so. -/
theorem resolve_stream_url_eq (channel : Channel) (mfp psw : String) (sig : Option String)
    (r : ResolveOutcome) :
    resolve_stream_url channel mfp psw sig r
      = (⟨mkProxyUrl mfp psw (resolvedTarget channel sig r) channel.headers
            (sigExtra channel.signature_placeholder sig),
          clean_channel_name channel.name⟩,
         resolveCalled channel sig) := by
  by_cases hph : channel.signature_placeholder = some "[$KEY$]"
  · match sig with
    | some s =>
      by_cases hloc : strContains "localhost" channel.url
      · simp [resolve_stream_url, resolvedTarget, resolveCalled, sigExtra, hph, hloc]
      · match r with
        | .exn =>
          simp [resolve_stream_url, resolvedTarget, resolveCalled, sigExtra, hph, hloc]
        | .http status result =>
          by_cases hst : status = 200
          · subst hst
            match result with
            | some u =>
              simp [resolve_stream_url, resolvedTarget, resolveCalled, sigExtra, hph, hloc]
            | none =>
              simp [resolve_stream_url, resolvedTarget, resolveCalled, sigExtra, hph, hloc]
          · simp [resolve_stream_url, resolvedTarget, resolveCalled, sigExtra, hph, hloc, hst]
    | none =>
      simp [resolve_stream_url, resolvedTarget, resolveCalled, sigExtra, hph]
  · cases hp : channel.signature_placeholder with
    | none =>
      match sig with
      | some s => simp [resolve_stream_url, resolvedTarget, resolveCalled, sigExtra, hp]
      | none => simp [resolve_stream_url, resolvedTarget, resolveCalled, sigExtra, hp]
    | some k =>
      have hk : k ≠ "[$KEY$]" := fun h => hph (by rw [hp, h])
      match sig with
      | some s => simp [resolve_stream_url, resolvedTarget, resolveCalled, sigExtra, hp, hk]
      | none => simp [resolve_stream_url, resolvedTarget, resolveCalled, sigExtra, hp, hk]

/-- When the record URL contains `localhost`, the target embedded in the
proxy URL is the record URL itself. -/
theorem resolvedTarget_localhost (channel : Channel) (sig : Option String) (r : ResolveOutcome)
    (hloc : strContains "localhost" channel.url = true) :
    resolvedTarget channel sig r = channel.url := by
  unfold resolvedTarget
  split <;> simp [hloc]

/-- When the resolve call fails, the target embedded in the proxy URL is
the original record URL. -/
theorem resolvedTarget_failed (channel : Channel) (sig : Option String) (r : ResolveOutcome)
    (hfail : r.failed = true) :
    resolvedTarget channel sig r = channel.url := by
  unfold resolvedTarget
  split
  · split
    · rfl
    · match r with
      | .exn => rfl
      | .http status result =>
        unfold ResolveOutcome.failed at hfail
        by_cases hst : status = 200
        · subst hst
          match result with
          | none => rfl
          | some u => simp at hfail
        · simp [hst]
  · rfl

/-- C2: for a record whose `signature_placeholder` is set, when the
resolve endpoint fails (exception/timeout, non-200 status, or unusable
body) the stream route still returns a non-empty singleton list of
descriptors, and the descriptor's URL is the proxy URL built from the
**original, unresolved** `channel.url` (the failure is absorbed, never
surfaced to the caller). -/
theorem resolve_stream_url_degraded :
    ∀ (channel : Channel) (mfp psw s : String) (r : ResolveOutcome),
      channel.signature_placeholder = some "[$KEY$]" →
      r.failed = true →
      stream_route_streams channel mfp psw (some s) r ≠ [] ∧
      stream_route_streams channel mfp psw (some s) r
        = [⟨mkProxyUrl mfp psw channel.url channel.headers (some s),
            clean_channel_name channel.name⟩] := by
  intro channel mfp psw s r hph hfail
  refine ⟨by simp [stream_route_streams], ?_⟩
  unfold stream_route_streams
  rw [resolve_stream_url_eq, resolvedTarget_failed channel (some s) r hfail]
  rw [show sigExtra channel.signature_placeholder (some s) = some s by
    rw [hph]; simp [sigExtra]]

/-- C2 witness: `resolve_stream_url_degraded` at a concrete channel and a
timed-out resolve call. -/
theorem resolve_stream_url_degraded_witness :
    stream_route_streams
        ⟨"rai-1", "Rai 1", "https://vavoo.to/play/1", "RAI", some "L",
         [("user-agent", "okhttp/4.11.0")], some "[$KEY$]"⟩
        "mfp.example" "pw" (some "SIG") ResolveOutcome.exn
      = [⟨mkProxyUrl "mfp.example" "pw" "https://vavoo.to/play/1"
            [("user-agent", "okhttp/4.11.0")] (some "SIG"),
          clean_channel_name "Rai 1"⟩] :=
  (resolve_stream_url_degraded
    ⟨"rai-1", "Rai 1", "https://vavoo.to/play/1", "RAI", some "L",
     [("user-agent", "okhttp/4.11.0")], some "[$KEY$]"⟩
    "mfp.example" "pw" "SIG" ResolveOutcome.exn rfl rfl).2

/-- C9: the descriptor built for the primary proxy has URL
`https://<mfp>/proxy/hls/manifest.m3u8?` followed by the urlencoding of:
`api_password`, `d` bound to the target URL, one `h_`-prefixed parameter
per record header in order, and — exactly when a signature was obtained
for the record (placeholder set and provider returned one) — the
signature as the extra `h_mediahubmx-signature` parameter.  Hypotheses:
the record's header keys are distinct (they come from a Python dict) and
none of them is itself `mediahubmx-signature`. -/
theorem resolve_stream_url_primary_params :
    ∀ (channel : Channel) (mfp psw : String) (sig : Option String) (r : ResolveOutcome),
      (channel.headers.map Prod.fst).Nodup →
      (∀ kv ∈ channel.headers, kv.1 ≠ "mediahubmx-signature") →
      (resolve_stream_url channel mfp psw sig r).1.url
        = "https://" ++ mfp ++ "/proxy/hls/manifest.m3u8?" ++
          urlencode ([("api_password", psw), ("d", resolvedTarget channel sig r)] ++
            channel.headers.map (fun kv => ("h_" ++ kv.1, kv.2)) ++
            (match sigExtra channel.signature_placeholder sig with
             | some s => [("h_mediahubmx-signature", s)]
             | none => [])) := by
  intro channel mfp psw sig r hnd hks
  rw [resolve_stream_url_eq]
  show mkProxyUrl mfp psw (resolvedTarget channel sig r) channel.headers
      (sigExtra channel.signature_placeholder sig) = _
  unfold mkProxyUrl
  rw [primaryParams_eq _ _ channel.headers _ hnd hks]

/-- C9 witness: `resolve_stream_url_primary_params` at a concrete channel
with one header, an obtained signature, and a successful resolve. -/
theorem resolve_stream_url_primary_params_witness :
    (resolve_stream_url
        ⟨"rai-1", "Rai 1", "https://vavoo.to/play/1", "RAI", some "L",
         [("user-agent", "okhttp/4.11.0")], some "[$KEY$]"⟩
        "mfp.example" "pw" (some "SIG")
        (ResolveOutcome.http 200 (some "https://cdn/x.m3u8"))).1.url
      = "https://" ++ "mfp.example" ++ "/proxy/hls/manifest.m3u8?" ++
        urlencode ([("api_password", "pw"),
            ("d", resolvedTarget
              ⟨"rai-1", "Rai 1", "https://vavoo.to/play/1", "RAI", some "L",
               [("user-agent", "okhttp/4.11.0")], some "[$KEY$]"⟩
              (some "SIG") (ResolveOutcome.http 200 (some "https://cdn/x.m3u8")))] ++
          [("h_user-agent", "okhttp/4.11.0")] ++ [("h_mediahubmx-signature", "SIG")]) :=
  resolve_stream_url_primary_params
    ⟨"rai-1", "Rai 1", "https://vavoo.to/play/1", "RAI", some "L",
     [("user-agent", "okhttp/4.11.0")], some "[$KEY$]"⟩
    "mfp.example" "pw" (some "SIG") (ResolveOutcome.http 200 (some "https://cdn/x.m3u8"))
    (by decide) (by decide)

/-- C10: a URL containing `"localhost"` is never sent to the resolve
endpoint — the standalone resolver returns the input link unchanged
without any upstream call, and the request-path resolver builds the proxy
URL directly from the original stream URL, also without contacting the
endpoint (for any signature state and any would-be resolve outcome). -/
theorem localhost_bypasses_resolve :
    (∀ (link signature : String) (r : ResolveOutcome),
        strContains "localhost" link = true →
        resolve_link link signature r = (some link, false)) ∧
    (∀ (channel : Channel) (mfp psw : String) (sig : Option String) (r : ResolveOutcome),
        strContains "localhost" channel.url = true →
        resolve_stream_url channel mfp psw sig r
          = (⟨mkProxyUrl mfp psw channel.url channel.headers
                (sigExtra channel.signature_placeholder sig),
              clean_channel_name channel.name⟩, false)) := by
  constructor
  · intro link signature r hloc
    unfold resolve_link
    rw [if_pos hloc]
  · intro channel mfp psw sig r hloc
    rw [resolve_stream_url_eq, resolvedTarget_localhost channel sig r hloc]
    have hcalled : resolveCalled channel sig = false := by
      unfold resolveCalled
      rw [hloc]
      simp
    rw [hcalled]

/-- C10 witness: both parts of `localhost_bypasses_resolve` at a concrete
localhost URL. -/
theorem localhost_bypasses_resolve_witness :
    resolve_link "http://localhost:3000/s.m3u8" "SIG" ResolveOutcome.exn
        = (some "http://localhost:3000/s.m3u8", false) ∧
    resolve_stream_url
        ⟨"loc", "Local", "http://localhost:3000/s.m3u8", "ALTRI", none, [], some "[$KEY$]"⟩
        "mfp.example" "pw" (some "SIG") ResolveOutcome.exn
      = (⟨mkProxyUrl "mfp.example" "pw" "http://localhost:3000/s.m3u8" []
            (sigExtra (some "[$KEY$]") (some "SIG")),
          clean_channel_name "Local"⟩, false) :=
  ⟨localhost_bypasses_resolve.1 "http://localhost:3000/s.m3u8" "SIG" ResolveOutcome.exn
     (by decide),
   localhost_bypasses_resolve.2
     ⟨"loc", "Local", "http://localhost:3000/s.m3u8", "ALTRI", none, [], some "[$KEY$]"⟩
     "mfp.example" "pw" (some "SIG") ResolveOutcome.exn (by decide)⟩

/-- `dropWhile` does not lengthen a list. -/
theorem length_dropWhile_le (p : Char → Bool) (l : List Char) :
    (l.dropWhile p).length ≤ l.length := by
  induction l with
  | nil => simp
  | cons c rest ih =>
    rw [List.dropWhile_cons]
    split
    · exact Nat.le_succ_of_le ih
    · simp

/-- A `dropWhile wsChar`-stable non-empty list stays stable when extended
on the right. -/
theorem dropWhile_ws_append_self (a b : List Char) (ha : a.dropWhile wsChar = a)
    (hne : a ≠ []) : (a ++ b).dropWhile wsChar = a ++ b := by
  match a, hne with
  | c :: a2, _ =>
    have hc : wsChar c = false := by
      by_contra hcon
      have hcon2 : wsChar c = true := by simpa using hcon
      rw [List.dropWhile_cons, hcon2, if_pos rfl] at ha
      have hlen := congrArg List.length ha
      have hle := length_dropWhile_le wsChar a2
      simp at hlen
      omega
    rw [List.cons_append, List.dropWhile_cons, hc]
    simp

/-- A list stable under both left and right whitespace-stripping is fixed
by `trimChars`. -/
theorem trimChars_eq_self (s : List Char) (h1 : s.dropWhile wsChar = s)
    (h2 : s.reverse.dropWhile wsChar = s.reverse) : trimChars s = s := by
  unfold trimChars
  rw [h1, h2, List.reverse_reverse]

/-- A list of the form `x ++ v` with `v` non-empty and free of trailing
whitespace is fixed by right-stripping. -/
theorem dropWhile_ws_reverse_append (x v : List Char) (hne : v ≠ [])
    (hrev : v.reverse.dropWhile wsChar = v.reverse) :
    (x ++ v).reverse.dropWhile wsChar = (x ++ v).reverse := by
  rw [List.reverse_append]
  exact dropWhile_ws_append_self v.reverse x.reverse hrev (by simpa using hne)

/-- An `#EXTINF` line is fixed by `strip()` when its tvg-id has no
trailing whitespace. -/
theorem trimChars_extinf (tvg_id logo category : List Char) (hne : tvg_id ≠ [])
    (hrev : tvg_id.reverse.dropWhile wsChar = tvg_id.reverse) :
    trimChars (extinfLine tvg_id logo category) = extinfLine tvg_id logo category := by
  apply trimChars_eq_self
  · rfl
  · rw [show extinfLine tvg_id logo category
        = ("#EXTINF:-1 tvg-id=\"".toList ++ (tvg_id ++ ("\" tvg-name=\"".toList ++ (tvg_id ++
            ("\" tvg-logo=\"".toList ++ (logo ++ ("\" group-title=\"".toList ++ (category ++
              "\",".toList)))))))) ++ tvg_id by simp [extinfLine, List.append_assoc]]
    exact dropWhile_ws_reverse_append _ tvg_id hne hrev

/-- `takeWhile (· ≠ '"')` collects a quote-free block up to the next
quote. -/
theorem takeWhile_neq_quote (v t : List Char) (h : '"' ∉ v) :
    (v ++ '"' :: t).takeWhile (fun c => decide (c ≠ '"')) = v := by
  induction v with
  | nil => simp [List.takeWhile_cons]
  | cons c v ih =>
    have hc : c ≠ '"' := fun hx => h (hx ▸ List.mem_cons_self c v)
    have hv : '"' ∉ v := fun hx => h (List.mem_cons_of_mem c hx)
    rw [List.cons_append, List.takeWhile_cons, if_pos (decide_eq_true hc), ih hv]

/-- A list is a prefix of itself extended on the right. -/
theorem isPrefixOf_append_self (x z : List Char) : x.isPrefixOf (x ++ z) = true := by
  induction x with
  | nil => simp [List.isPrefixOf]
  | cons c x ih => simp [List.isPrefixOf, ih]

/-- Shared prefixes cancel in `isPrefixOf`. -/
theorem isPrefixOf_append_same (x y z : List Char) :
    (x ++ y).isPrefixOf (x ++ z) = y.isPrefixOf z := by
  induction x with
  | nil => rfl
  | cons c x ih => simpa [List.isPrefixOf] using ih

/-- The pattern `attr="` cannot match at any position inside a quote-free
block that does not end in `attr=`, because its final quote would have to
fall inside the block. -/
theorem not_prefix_attr (attr : List Char) :
    ∀ (w t : List Char), '"' ∉ attr → '"' ∉ w → w ≠ attr ++ ['='] →
      (attr ++ ['=', '"']).isPrefixOf (w ++ '"' :: t) = false := by
  induction attr with
  | nil =>
    intro w t _ hw hne
    match w with
    | [] => rfl
    | c :: w2 =>
      by_cases hc : c = '='
      · subst hc
        match w2 with
        | [] => exact absurd rfl hne
        | d :: w3 =>
          have hd : ('"' == d) = false := beq_eq_false_iff_ne.mpr (by
            intro h
            exact hw (by rw [h]; exact List.mem_cons_of_mem '=' (List.mem_cons_self d w3)))
          simp [List.isPrefixOf, hd]
      · have hc2 : ('=' == c) = false := beq_eq_false_iff_ne.mpr (Ne.symm hc)
        simp [List.isPrefixOf, hc2]
  | cons a attr2 ih =>
    intro w t ha hw hne
    have ha2 : '"' ∉ attr2 := fun h => ha (List.mem_cons_of_mem a h)
    have haq : (a == '"') = false := beq_eq_false_iff_ne.mpr
      (fun h => ha (h ▸ List.mem_cons_self a attr2))
    match w with
    | [] => simp [List.isPrefixOf, haq]
    | c :: w2 =>
      by_cases hc : a = c
      · subst hc
        have hw2 : '"' ∉ w2 := fun h => hw (List.mem_cons_of_mem _ h)
        have hne2 : w2 ≠ attr2 ++ ['='] := by
          intro h
          exact hne (by rw [h]; rfl)
        have hrec := ih w2 t ha2 hw2 hne2
        simp [List.isPrefixOf, hrec]
      · have hc2 : (a == c) = false := beq_eq_false_iff_ne.mpr hc
        simp [List.isPrefixOf, hc2]

/-- One non-matching scan step of `reSearchAttr`. -/
theorem reSearchAttr_cons_none (attr : List Char) (c : Char) (rest : List Char)
    (h : tryMatchAttr attr (c :: rest) = none) :
    reSearchAttr attr (c :: rest) = reSearchAttr attr rest := by
  have hstep : reSearchAttr attr (c :: rest)
      = (match tryMatchAttr attr (c :: rest) with
         | some v => some v
         | none => reSearchAttr attr rest) := rfl
  rw [hstep, h]

/-- A matching scan step of `reSearchAttr`. -/
theorem reSearchAttr_cons_some (attr : List Char) (c : Char) (rest v : List Char)
    (h : tryMatchAttr attr (c :: rest) = some v) :
    reSearchAttr attr (c :: rest) = some v := by
  have hstep : reSearchAttr attr (c :: rest)
      = (match tryMatchAttr attr (c :: rest) with
         | some w => some w
         | none => reSearchAttr attr rest) := rfl
  rw [hstep, h]

/-- The attribute scan skips over a quote-free block that does not end in
`attr=` (the leftmost regex match cannot start inside it). -/
theorem reSearchAttr_skip (attr : List Char) :
    ∀ (v t : List Char), '"' ∉ attr → '"' ∉ v → ¬ ((attr ++ ['=']) <:+ v) →
      reSearchAttr attr (v ++ '"' :: t) = reSearchAttr attr ('"' :: t) := by
  intro v
  induction v with
  | nil => intro t _ _ _; rfl
  | cons c v2 ih =>
    intro t ha hv hsfx
    have hpre : (attr ++ ['=', '"']).isPrefixOf ((c :: v2) ++ '"' :: t) = false := by
      apply not_prefix_attr attr (c :: v2) t ha hv
      intro h
      exact hsfx (h ▸ List.suffix_rfl)
    have htry : tryMatchAttr attr ((c :: v2) ++ '"' :: t) = none := by
      unfold tryMatchAttr
      rw [hpre]
      simp
    rw [List.cons_append] at htry ⊢
    rw [reSearchAttr_cons_none attr c (v2 ++ '"' :: t) htry]
    exact ih t ha (fun h => hv (List.mem_cons_of_mem c h))
      (fun h => hsfx (h.trans (List.suffix_cons c v2)))

/-- The attribute scan succeeds at the actual attribute site, returning
the quoted (non-empty, quote-free) value. -/
theorem reSearchAttr_found (a : Char) (attr2 v t : List Char)
    (hq : '"' ∉ v) (hne : v ≠ []) :
    reSearchAttr (a :: attr2) ((a :: attr2) ++ '=' :: '"' :: (v ++ '"' :: t)) = some v := by
  have hpre : ((a :: attr2) ++ ['=', '"']).isPrefixOf
      ((a :: attr2) ++ '=' :: '"' :: (v ++ '"' :: t)) = true := by
    have hps := isPrefixOf_append_self ((a :: attr2) ++ ['=', '"']) (v ++ '"' :: t)
    rw [List.append_assoc] at hps
    rw [show (['=', '"'] : List Char) ++ (v ++ '"' :: t) = '=' :: '"' :: (v ++ '"' :: t)
      from rfl] at hps
    exact hps
  have hdrop : ((a :: attr2) ++ '=' :: '"' :: (v ++ '"' :: t)).drop ((a :: attr2).length + 2)
      = v ++ '"' :: t := by
    rw [show (a :: attr2) ++ '=' :: '"' :: (v ++ '"' :: t)
          = ((a :: attr2) ++ ['=', '"']) ++ (v ++ '"' :: t) by simp,
      show (a :: attr2).length + 2 = ((a :: attr2) ++ ['=', '"']).length by simp]
    exact List.drop_left _ _
  have htry : tryMatchAttr (a :: attr2) ((a :: attr2) ++ '=' :: '"' :: (v ++ '"' :: t))
      = some v := by
    unfold tryMatchAttr
    rw [hpre, if_pos rfl, hdrop, takeWhile_neq_quote v t hq]
    rw [if_neg (by simpa [List.isEmpty_iff] using hne), if_pos (by simp)]

  rw [show (a :: attr2) ++ '=' :: '"' :: (v ++ '"' :: t)
        = a :: (attr2 ++ '=' :: '"' :: (v ++ '"' :: t)) from rfl] at htry
  rw [show (a :: attr2) ++ '=' :: '"' :: (v ++ '"' :: t)
        = a :: (attr2 ++ '=' :: '"' :: (v ++ '"' :: t)) from rfl]
  exact reSearchAttr_cons_some (a :: attr2) a _ v htry

/-- The comma scan skips a comma-free block. -/
theorem reSearchComma_skip (v t : List Char) (h : ',' ∉ v) :
    reSearchComma (v ++ t) = reSearchComma t := by
  induction v with
  | nil => rfl
  | cons c v ih =>
    have hc : c ≠ ',' := fun hx => h (hx ▸ List.mem_cons_self c v)
    have hv : ',' ∉ v := fun hx => h (List.mem_cons_of_mem c hx)
    rw [List.cons_append]
    have hstep : reSearchComma (c :: (v ++ t))
        = if c = ',' ∧ (v ++ t) ≠ [] then some (v ++ t) else reSearchComma (v ++ t) := rfl
    rw [hstep, if_neg (fun hcon => hc hcon.1)]
    exact ih hv

/-- The comma scan succeeds at a comma with a non-empty remainder. -/
theorem reSearchComma_comma (rest : List Char) (h : rest ≠ []) :
    reSearchComma (',' :: rest) = some rest := by
  have hstep : reSearchComma (',' :: rest)
      = if ',' = ',' ∧ rest ≠ [] then some rest else reSearchComma rest := rfl
  rw [hstep, if_pos ⟨rfl, h⟩]

/-- `tvg-id` extraction succeeds on a written line, returning the written
tvg-id. -/
theorem extinf_search_id (tvg_id logo category : List Char)
    (hq : '"' ∉ tvg_id) (hne : tvg_id ≠ []) :
    reSearchAttr "tvg-id".toList (extinfLine tvg_id logo category) = some tvg_id :=
  reSearchAttr_found 't' "vg-id".toList tvg_id
    (" tvg-name=\"".toList ++ (tvg_id ++ ("\" tvg-logo=\"".toList ++ (logo ++
      ("\" group-title=\"".toList ++ (category ++ ("\",".toList ++ tvg_id)))))))
    hq hne

/-- `tvg-logo` extraction succeeds on a written line, returning the
written logo. -/
theorem extinf_search_logo (tvg_id logo category : List Char)
    (hqid : '"' ∉ tvg_id) (hsid : ¬ ("tvg-logo=".toList <:+ tvg_id))
    (hql : '"' ∉ logo) (hnel : logo ≠ []) :
    reSearchAttr "tvg-logo".toList (extinfLine tvg_id logo category) = some logo := by
  show reSearchAttr "tvg-logo".toList
      (tvg_id ++ '"' :: (" tvg-name=\"".toList ++ (tvg_id ++ ("\" tvg-logo=\"".toList ++
        (logo ++ ("\" group-title=\"".toList ++ (category ++ ("\",".toList ++ tvg_id))))))))
      = some logo
  rw [reSearchAttr_skip "tvg-logo".toList tvg_id _ (by decide) hqid
    (show ¬ ("tvg-logo".toList ++ ['=']) <:+ tvg_id from hsid)]
  rw [reSearchAttr_cons_none "tvg-logo".toList '"' _ rfl]
  show reSearchAttr "tvg-logo".toList
      (tvg_id ++ '"' :: (" tvg-logo=\"".toList ++ (logo ++ ("\" group-title=\"".toList ++
        (category ++ ("\",".toList ++ tvg_id))))))
      = some logo
  rw [reSearchAttr_skip "tvg-logo".toList tvg_id _ (by decide) hqid
    (show ¬ ("tvg-logo".toList ++ ['=']) <:+ tvg_id from hsid)]
  rw [reSearchAttr_cons_none "tvg-logo".toList '"' _ rfl]
  exact reSearchAttr_found 't' "vg-logo".toList logo
    (" group-title=\"".toList ++ (category ++ ("\",".toList ++ tvg_id))) hql hnel

/-- `group-title` extraction succeeds on a written line, returning the
written category. -/
theorem extinf_search_title (tvg_id logo category : List Char)
    (hqid : '"' ∉ tvg_id) (hsid : ¬ ("group-title=".toList <:+ tvg_id))
    (hql : '"' ∉ logo) (hsl : ¬ ("group-title=".toList <:+ logo))
    (hqc : '"' ∉ category) (hnec : category ≠ []) :
    reSearchAttr "group-title".toList (extinfLine tvg_id logo category) = some category := by
  show reSearchAttr "group-title".toList
      (tvg_id ++ '"' :: (" tvg-name=\"".toList ++ (tvg_id ++ ("\" tvg-logo=\"".toList ++
        (logo ++ ("\" group-title=\"".toList ++ (category ++ ("\",".toList ++ tvg_id))))))))
      = some category
  rw [reSearchAttr_skip "group-title".toList tvg_id _ (by decide) hqid
    (show ¬ ("group-title".toList ++ ['=']) <:+ tvg_id from hsid)]
  rw [reSearchAttr_cons_none "group-title".toList '"' _ rfl]
  show reSearchAttr "group-title".toList
      (tvg_id ++ '"' :: (" tvg-logo=\"".toList ++ (logo ++ ("\" group-title=\"".toList ++
        (category ++ ("\",".toList ++ tvg_id))))))
      = some category
  rw [reSearchAttr_skip "group-title".toList tvg_id _ (by decide) hqid
    (show ¬ ("group-title".toList ++ ['=']) <:+ tvg_id from hsid)]
  rw [reSearchAttr_cons_none "group-title".toList '"' _ rfl]
  show reSearchAttr "group-title".toList
      (logo ++ '"' :: (" group-title=\"".toList ++ (category ++ ("\",".toList ++ tvg_id))))
      = some category
  rw [reSearchAttr_skip "group-title".toList logo _ (by decide) hql
    (show ¬ ("group-title".toList ++ ['=']) <:+ logo from hsl)]
  rw [reSearchAttr_cons_none "group-title".toList '"' _ rfl]
  exact reSearchAttr_found 'g' "roup-title".toList category (',' :: tvg_id) hqc hnec

/-- The display-name extraction (first comma) on a written line returns
the written tvg-id. -/
theorem extinf_search_comma (tvg_id logo category : List Char)
    (hid : ',' ∉ tvg_id) (hl : ',' ∉ logo) (hc : ',' ∉ category) (hne : tvg_id ≠ []) :
    reSearchComma (extinfLine tvg_id logo category) = some tvg_id := by
  show reSearchComma
      (tvg_id ++ ("\" tvg-name=\"".toList ++ (tvg_id ++ ("\" tvg-logo=\"".toList ++
        (logo ++ ("\" group-title=\"".toList ++ (category ++ ("\",".toList ++ tvg_id))))))))
      = some tvg_id
  rw [reSearchComma_skip tvg_id _ hid]
  show reSearchComma
      (tvg_id ++ ("\" tvg-logo=\"".toList ++ (logo ++ ("\" group-title=\"".toList ++
        (category ++ ("\",".toList ++ tvg_id))))))
      = some tvg_id
  rw [reSearchComma_skip tvg_id _ hid]
  show reSearchComma
      (logo ++ ("\" group-title=\"".toList ++ (category ++ ("\",".toList ++ tvg_id))))
      = some tvg_id
  rw [reSearchComma_skip logo _ hl]
  show reSearchComma (category ++ ('"' :: ',' :: tvg_id)) = some tvg_id
  rw [reSearchComma_skip category _ hc]
  show reSearchComma (',' :: tvg_id) = some tvg_id
  exact reSearchComma_comma tvg_id hne

/-- Processing a written `#EXTINF` line: the in-progress channel is set
from the extracted attributes (id derived, name trimmed), and the header
dict and placeholder are reset. -/
theorem parseStep_extinf (catMap : List (String × List String)) (st : ParseState)
    (tvg_id logo category : List Char)
    (hne : tvg_id ≠ []) (hqid : '"' ∉ tvg_id) (hcid : ',' ∉ tvg_id)
    (hdw : tvg_id.dropWhile wsChar = tvg_id)
    (hdwr : tvg_id.reverse.dropWhile wsChar = tvg_id.reverse)
    (hsid1 : ¬ ("tvg-logo=".toList <:+ tvg_id)) (hsid2 : ¬ ("group-title=".toList <:+ tvg_id))
    (hnel : logo ≠ []) (hql : '"' ∉ logo) (hcl : ',' ∉ logo)
    (hsl : ¬ ("group-title=".toList <:+ logo))
    (hnec : category ≠ []) (hqc : '"' ∉ category) (hcc : ',' ∉ category) :
    parseStep catMap st (extinfLine tvg_id logo category)
      = ⟨st.channels, some ⟨deriveIdC tvg_id, tvg_id, category, logo⟩, [], none⟩ := by
  have htrim : trimChars (extinfLine tvg_id logo category) = extinfLine tvg_id logo category :=
    trimChars_extinf tvg_id logo category hne hdwr
  have hpre : "#EXTINF:".toList.isPrefixOf (extinfLine tvg_id logo category) = true := rfl
  simp only [parseStep, htrim, hpre, if_true,
    extinf_search_id tvg_id logo category hqid hne,
    extinf_search_comma tvg_id logo category hcid hcl hcc hne,
    extinf_search_title tvg_id logo category hqid hsid2 hql hsl hqc hnec,
    extinf_search_logo tvg_id logo category hqid hsid1 hql hnel,
    trimChars_eq_self tvg_id hdw hdwr]
  rfl

/-- Processing a bare URL line with an in-progress channel: the record is
appended and the in-progress channel cleared. -/
theorem parseStep_url (catMap : List (String × List String)) (chs : List MRecord)
    (pc : PartialChannel) (hs : List (List Char × List Char)) (sp : Option (List Char))
    (url : List Char) (hne : url ≠ [])
    (h1 : url.dropWhile wsChar = url) (h2 : url.reverse.dropWhile wsChar = url.reverse)
    (hhash : ¬ (['#'].isPrefixOf url = true)) :
    parseStep catMap ⟨chs, some pc, hs, sp⟩ url
      = ⟨chs ++ [⟨pc.id, pc.name, pc.genre, pc.logo, hs, sp, url⟩], none, hs, sp⟩ := by
  have htrim : trimChars url = url := trimChars_eq_self url h1 h2
  obtain ⟨c, rest, rfl⟩ : ∃ c rest, url = c :: rest := by
    cases url with
    | nil => exact absurd rfl hne
    | cons c r => exact ⟨c, r, rfl⟩
  have hcn : c ≠ '#' := by
    intro h
    exact hhash (by subst h; simp [List.isPrefixOf])
  have hc : ('#' == c) = false := beq_eq_false_iff_ne.mpr (fun h => hcn h.symm)
  have hp1 : "#EXTINF:".toList.isPrefixOf (c :: rest) = false := by
    simp [List.isPrefixOf, hc]
  have hp2 : "#EXTVLCOPT:".toList.isPrefixOf (c :: rest) = false := by
    simp [List.isPrefixOf, hc]
  simp only [parseStep, htrim, hp1, hp2, Bool.false_eq_true, if_false]
  rw [if_pos ⟨hne, hhash⟩]

/-- Folding the parser over one written entry appends exactly the
expected record and leaves the state ready for the next entry (the four
`#EXTVLCOPT:` steps are fully concrete and are crossed definitionally). -/
theorem parse_entry_foldl (catMap : List (String × List String)) (e : CompiledEntry)
    (hwf : WFEntry e) (st : ParseState) :
    List.foldl (parseStep catMap) st (entryLines e)
      = ⟨st.channels ++ [parsedOf e], none, fixedHeadersC, some "[$KEY$]".toList⟩ := by
  obtain ⟨hne, hqid, hcid, hnlid, hdw, hdwr, hsid1, hsid2,
    hnel, hql, hcl, hnll, hsl, hnec, hqc, hcc, hnlc,
    hneu, hnlu, hu1, hu2, hhash⟩ := hwf
  simp only [entryLines, List.foldl_cons, List.foldl_nil]
  rw [parseStep_extinf catMap st e.tvg_id.toList e.logo.toList e.category.toList
    hne hqid hcid hdw hdwr hsid1 hsid2 hnel hql hcl hsl hnec hqc hcc]
  show parseStep catMap
      ⟨st.channels, some ⟨deriveIdC e.tvg_id.toList, e.tvg_id.toList,
        e.category.toList, e.logo.toList⟩, fixedHeadersC, some "[$KEY$]".toList⟩
      e.url.toList
    = ⟨st.channels ++ [parsedOf e], none, fixedHeadersC, some "[$KEY$]".toList⟩
  rw [parseStep_url catMap st.channels
    ⟨deriveIdC e.tvg_id.toList, e.tvg_id.toList, e.category.toList, e.logo.toList⟩
    fixedHeadersC (some "[$KEY$]".toList) e.url.toList hneu hu1 hu2 hhash]
  rfl

/-- C1 counterexample: the parser derives the record `id` from the
written `tvg-id` by lowercasing and replacing spaces with hyphens
(`parse_m3u8_to_channels` line 285), so for the compiled entry with
tvg-id `"Rai 1"` the parsed `id` is `"rai-1"`, **not** identical to the
entry's id as the claim states. -/
theorem parse_write_id_cex :
    (parse_m3u8_lines [] (generate_m3u_lines
        [⟨"Rai 1", "https://l/logo.png", "RAI", "https://u/1"⟩])).map (fun r => r.id)
      = ["rai-1".toList] ∧
    "rai-1".toList ≠ "Rai 1".toList := by
  refine ⟨by decide, by decide⟩

/-- C1 (amended): for every list of well-formed compiled entries, parsing
the playlist text produced by the writer yields exactly one record per
entry, in order, with `name`, `category` (genre), `logo`, the three fixed
playback headers, the signature-placeholder directive reappearing
verbatim as `[$KEY$]`, and the `url` all identical to the written entry;
the record `id` is the entry's tvg-id lowercased with spaces replaced by
hyphens (identical only when the tvg-id is already of that shape). -/
theorem parse_write_roundtrip :
    ∀ (catMap : List (String × List String)) (entries : List CompiledEntry),
      (∀ e ∈ entries, WFEntry e) →
      parse_m3u8_lines catMap (generate_m3u_lines entries) = entries.map parsedOf := by
  intro catMap entries hwf
  have main : ∀ (es : List CompiledEntry) (st : ParseState), (∀ e ∈ es, WFEntry e) →
      (List.foldl (parseStep catMap) st ((es.map entryLines).flatten)).channels
        = st.channels ++ es.map parsedOf := by
    intro es
    induction es with
    | nil => intro st _; simp
    | cons e es ih =>
      intro st h
      rw [List.map_cons, List.flatten_cons, List.foldl_append,
        parse_entry_foldl catMap e (h e (List.mem_cons_self e es)) st,
        ih _ (fun x hx => h x (List.mem_cons_of_mem e hx))]
      simp
  unfold parse_m3u8_lines generate_m3u_lines
  rw [List.foldl_cons,
    show parseStep catMap ⟨[], none, [], none⟩
        "#EXTM3U url-tvg=\"http://epg-guide.com/it.gz\"".toList
      = ⟨[], none, [], none⟩ from rfl,
    main entries ⟨[], none, [], none⟩ hwf]
  simp

/-- C1 witness: `parse_write_roundtrip` at a concrete compiled entry
(well-formedness discharged by `decide`). -/
theorem parse_write_roundtrip_witness :
    parse_m3u8_lines [] (generate_m3u_lines
        [⟨"Rai 1", "https://placehold.co/400x400?text=Ra", "RAI", "https://vavoo.to/play/1"⟩])
      = [parsedOf ⟨"Rai 1", "https://placehold.co/400x400?text=Ra", "RAI",
          "https://vavoo.to/play/1"⟩] :=
  parse_write_roundtrip []
    [⟨"Rai 1", "https://placehold.co/400x400?text=Ra", "RAI", "https://vavoo.to/play/1"⟩]
    (by decide)
